import Mathlib

/-!
# Verification of the `prepare` command of corepack

Shallow embedding of `src/sources/commands/Prepare.ts`. The command's
collaborators (the engine, spec parsing, manifest lookup, the install
folder) are abstracted into an environment record `Env`; the effects
performed by `execute` (engine calls, archive creation, stdout writes)
are recorded as an event trace so that ordering, conditionality and
frame properties can be stated and proved.
-/

namespace Corepack

/-- An unresolved package-manager request (`types.ts` Descriptor). -/
structure Descriptor where
  name : String
  range : String
deriving DecidableEq

/-- A resolved package-manager request (`types.ts` Locator). -/
structure Locator where
  name : String
  reference : String
deriving DecidableEq

/-- Result of `engine.ensurePackageManager`: the install location on disk. -/
structure InstallSpec where
  location : String
deriving DecidableEq

/-- Result of `specUtils.loadSpec`: a tagged lookup outcome. -/
inductive LookupResult where
  | NoProject
  | NoSpec
  | Found (spec : Descriptor)
deriving DecidableEq

/-- The `-o,--output` option: absent, boolean `true` (bare `-o`), or a string. -/
inductive OutputOpt where
  | unset
  | flag
  | path (p : String)
deriving DecidableEq

/-- JavaScript truthiness of `this.output` (`!this.output` in the source):
`undefined` and the empty string are falsy. -/
def OutputOpt.truthy : OutputOpt → Bool
  | .unset => false
  | .flag => true
  | .path p => p != ""

/-- The parsed flags of `PrepareCommand`. -/
structure PrepareFlags where
  spec : Option String
  activate : Bool
  all : Bool
  output : OutputOpt
  json : Bool
deriving DecidableEq

/-- Errors aborting `execute` (all are uncaught throws; clipanion maps
them to exit code 1). `usage` and `malformedSpec` arise in `Prepare.ts`
itself; `integrity` and `networkDisabled` are the engine's install-failure
kinds, modelled from spec 4.3 step 4 and spec 7 (the engine's source is
not under src). -/
inductive CmdError where
  | usage (msg : String)
  | malformedSpec (raw : String)
  | integrity (msg : String)
  | networkDisabled (msg : String)
deriving DecidableEq

/-- The command's collaborators, abstracted: current directory, install
folder (`folderUtils.getInstallFolder`), the engine's default descriptors,
the manifest lookup for `cwd` (`specUtils.loadSpec`), CLI spec parsing
(`specUtils.parseSpec`, `none` modelling a `MalformedSpecError` throw),
descriptor resolution, and installation - which can fail (a thrown
`IntegrityError` or `NetworkDisabledError` during the install, spec 4.3
and 7), modelled as an `Except`. -/
structure Env where
  cwd : String
  installFolder : String
  defaultDescriptors : List Descriptor
  loadSpec : LookupResult
  parseSpec : String → Option Descriptor
  resolveDescriptor : Descriptor → Option Locator
  ensurePackageManager : Locator → Except CmdError InstallSpec

/-- Observable effects of one `execute` run, in order. -/
inductive Event where
  | resolve (d : Descriptor)
  | ensure (l : Locator)
  | activate (l : Locator)
  | pack (cwd : String) (file : String) (entry : String)
  | stdout (s : String)
deriving DecidableEq

/-- Exit code of the process given the command's error outcome. -/
def exitCode : Option CmdError → Nat
  | none => 0
  | some _ => 1

def allUsageMsg : String :=
  "The --all option cannot be used along with an explicit package manager specification"

def noProjectMsg : String :=
  "Couldn\x27t find a project in the local directory - please explicit the package manager to pack, or run this command from a valid project"

def noSpecMsg : String :=
  "The local project doesn\x27t feature a \x27packageManager\x27 field - please explicit the package manager to pack, or update the manifest to reference it"

/-- The message of the `UsageError` thrown when resolution fails. -/
def resolveFailMsg (d : Descriptor) : String :=
  "Failed to successfully resolve \x27" ++ d.range ++ "\x27 to a valid " ++ d.name ++ " release"

/-- One element of the `specs` list iterated by `execute`: `undefined`
(no explicit descriptor, discover from the project), the CLI string, or a
`Descriptor` coming from `getDefaultDescriptors` under `--all`. -/
inductive Req where
  | discover
  | cli (raw : String)
  | fromAll (d : Descriptor)
deriving DecidableEq

/-- `path.join(a, b)` for the simple relative names used here. -/
def pathJoin (a b : String) : String := a ++ "/" ++ b

/-- `path.relative(base, loc)` for the case used here: when `loc` lies
under `base`, the remainder after `base ++ "/"`; otherwise `loc` itself. -/
def pathRelative (base loc : String) : String :=
  if (base.data ++ [Char.ofNat 47]) <+: loc.data then
    String.mk (loc.data.drop (base.data.length + 1))
  else loc

/-- `JSON.stringify` on the file names appearing here (no escaping needed). -/
def jsonStringify (s : String) : String := "\x22" ++ s ++ "\x22"

/-- The per-request determination of `spec : Descriptor` at the top of the
loop body of `execute` (lines 59-77 of `Prepare.ts`). -/
def reqSpec (env : Env) : Req → Except CmdError Descriptor
  | .discover =>
    match env.loadSpec with
    | .NoProject => .error (.usage noProjectMsg)
    | .NoSpec => .error (.usage noSpecMsg)
    | .Found s => .ok s
  | .cli raw =>
    match env.parseSpec raw with
    | none => .error (.malformedSpec raw)
    | some s => .ok s
  | .fromAll d => .ok d

/-- The default archive file name: versioned when `request` was defined
(explicit CLI descriptor or `--all` descriptor), version-less when the
descriptor was discovered from the project (`request === undefined`). -/
def defaultFileName (env : Env) (req : Req) (resolved : Locator) : String :=
  match req with
  | .discover => pathJoin env.cwd ("corepack-" ++ resolved.name ++ ".tgz")
  | _ => pathJoin env.cwd ("corepack-" ++ resolved.name ++ "-" ++ resolved.reference ++ ".tgz")

/-- The archive file name actually used: the explicit `--output` string if
one was given, else the computed default. -/
def fileNameFor (env : Env) (flags : PrepareFlags) (req : Req) (resolved : Locator) : String :=
  match flags.output with
  | .path p => p
  | _ => defaultFileName env req resolved

/-- The line written to stdout after packing. -/
def outLine (flags : PrepareFlags) (fileName : String) : String :=
  if flags.json then jsonStringify fileName ++ "\n" else "Packed " ++ fileName ++ "\n"

/-- One iteration of the loop body of `execute`: events performed and the
error aborting the command, if any. -/
def processRequest (env : Env) (flags : PrepareFlags) (req : Req) :
    List Event × Option CmdError :=
  match reqSpec env req with
  | .error e => ([], some e)
  | .ok spec =>
    match env.resolveDescriptor spec with
    | none => ([.resolve spec], some (.usage (resolveFailMsg spec)))
    | some resolved =>
      match env.ensurePackageManager resolved with
      | .error e => ([.resolve spec], some e)
      | .ok installSpec =>
        let evs := [Event.resolve spec, Event.ensure resolved]
          ++ (if flags.activate then [Event.activate resolved] else [])
        if flags.output.truthy then
          let fileName := fileNameFor env flags req resolved
          (evs ++ [Event.pack env.installFolder fileName
                     (pathRelative env.installFolder installSpec.location),
                   Event.stdout (outLine flags fileName)], none)
        else
          (evs, none)

/-- The `specs` list built by `execute` before the loop. -/
def requestList (env : Env) (flags : PrepareFlags) : List Req :=
  if flags.all then env.defaultDescriptors.map Req.fromAll
  else
    match flags.spec with
    | some s => [Req.cli s]
    | none => [Req.discover]

/-- The loop of `execute`: requests are processed in order; the first
error aborts, keeping the events already performed. -/
def runRequests (env : Env) (flags : PrepareFlags) : List Req → List Event × Option CmdError
  | [] => ([], none)
  | r :: rs =>
    match processRequest env flags r with
    | (evs, some e) => (evs, some e)
    | (evs, none) =>
      let rest := runRequests env flags rs
      (evs ++ rest.1, rest.2)

/-- `PrepareCommand.execute`: the `--all`/explicit-spec guard, then the loop. -/
def execute (env : Env) (flags : PrepareFlags) : List Event × Option CmdError :=
  if flags.all && flags.spec.isSome then
    ([], some (.usage allUsageMsg))
  else
    runRequests env flags (requestList env flags)

/-! ## Spec-modelled collaborators

The engine, the activation state and the hydrate command are code of this
repository that is not under `src/` (only `Prepare.ts` and the tests are);
the definitions below model them from the spec, as their doc comments state.
-/

/-- Modelled from the spec: the Activation State (spec 4.4), whose source is
not under src - the persisted name to Locator mapping. -/
def ActivationState : Type := String → Option Locator

/-- Modelled from the spec: `activatePackageManager(locator)` (spec 4.4),
whose source is not under src - updates the persisted name to Locator
mapping for exactly one name. -/
def activatePackageManager (st : ActivationState) (l : Locator) : ActivationState :=
  fun n => if n = l.name then some l else st n

/-- Modelled from the spec: `getDefaultDescriptors()` (spec 4.4), whose
source is not under src - one Descriptor per supported name, preferring the
activation-state Locator for that name if present, else the embedded
default-version table (given here as `table`, name paired with default range). -/
def getDefaultDescriptors (st : ActivationState) (table : List (String × String)) :
    List Descriptor :=
  table.map fun nv =>
    match st nv.1 with
    | some loc => { name := nv.1, range := loc.reference }
    | none => { name := nv.1, range := nv.2 }

/-- Modelled from the spec: an installed tree of the Install Cache
(spec 4.3), whose source is not under src - entries are relative paths
within the install directory paired with file contents. -/
abbrev Tree : Type := List (String × String)

/-- Modelled from the spec: Export (spec 4.6), whose source beyond the
`tar.c` call of `Prepare.ts` is not under src - the archive holds the
install subtree under paths relative to the cache root, i.e. prefixed with
`name/reference/`. -/
def exportArchive (l : Locator) (t : Tree) : Tree :=
  t.map fun e => (l.name ++ "/" ++ l.reference ++ "/" ++ e.1, e.2)

/-- Events of the hydrate flow, used to state that hydration never touches
the network. -/
inductive HydrateEvent where
  | extractEntry (p : String)
  | markComplete (name reference : String)
  | network
deriving DecidableEq

/-- Modelled from the spec: Import / hydrate (spec 4.6), whose source is not
under src - extract the archive directly under an empty cache root, trusting
its internal relative layout, then write the completion marker; no network
event is ever emitted. -/
def hydrate (a : Tree) (l : Locator) : Tree × List HydrateEvent :=
  (a, a.map (fun e => HydrateEvent.extractEntry e.1)
      ++ [HydrateEvent.markComplete l.name l.reference])

/-- The subtree of a cache root belonging to one locator's install: entries
under `name/reference/`, with that prefix stripped. -/
def installEntries (l : Locator) (cache : Tree) : Tree :=
  (cache.filter fun e =>
      decide ((l.name ++ "/" ++ l.reference ++ "/").data <+: e.1.data)).map
    fun e => (String.mk (e.1.data.drop (l.name ++ "/" ++ l.reference ++ "/").data.length), e.2)

/-- A simple content hash of a tree, folding over paths and contents. -/
def strHash (s : String) : Nat := s.data.foldl (fun h c => h * 131 + c.toNat) 7

/-- Content hash of a whole tree. -/
def contentHash (t : Tree) : Nat :=
  t.foldl (fun h e => h * 1000003 + strHash e.1 * 31 + strHash e.2) 0

/-! ## Concrete instances used by witnesses and counterexamples -/

/-- A concrete environment: one default descriptor, resolution succeeds by
treating the range as exact, installs land under `/cache/<name>/<ref>`. -/
def envOne : Env where
  cwd := "/proj"
  installFolder := "/cache"
  defaultDescriptors := [⟨"yarn", "1.22.4"⟩]
  loadSpec := .Found ⟨"yarn", "3.0.0"⟩
  parseSpec := fun s => if s = "yarn@2.2.2" then some ⟨"yarn", "2.2.2"⟩ else none
  resolveDescriptor := fun d => some ⟨d.name, d.range⟩
  ensurePackageManager := fun l => .ok ⟨"/cache/" ++ l.name ++ "/" ++ l.reference⟩

/-- A concrete environment whose resolution always fails. -/
def envNoRes : Env where
  cwd := "/proj"
  installFolder := "/cache"
  defaultDescriptors := [⟨"yarn", "1.22.4"⟩]
  loadSpec := .Found ⟨"yarn", "3.0.0"⟩
  parseSpec := fun s => if s = "yarn@2.2.2" then some ⟨"yarn", "2.2.2"⟩ else none
  resolveDescriptor := fun _ => none
  ensurePackageManager := fun l => .ok ⟨"/cache/" ++ l.name ++ "/" ++ l.reference⟩

/-- A concrete environment with no project manifest. -/
def envNP : Env where
  cwd := "/proj"
  installFolder := "/cache"
  defaultDescriptors := []
  loadSpec := .NoProject
  parseSpec := fun _ => none
  resolveDescriptor := fun d => some ⟨d.name, d.range⟩
  ensurePackageManager := fun l => .ok ⟨"/cache/" ++ l.name ++ "/" ++ l.reference⟩

/-- A concrete environment whose resolution succeeds but whose install
always fails with an integrity error (spec 4.3 step 4). -/
def envInstallFail : Env where
  cwd := "/proj"
  installFolder := "/cache"
  defaultDescriptors := [⟨"yarn", "1.22.4"⟩]
  loadSpec := .Found ⟨"yarn", "3.0.0"⟩
  parseSpec := fun s => if s = "yarn@2.2.2" then some ⟨"yarn", "2.2.2"⟩ else none
  resolveDescriptor := fun d => some ⟨d.name, d.range⟩
  ensurePackageManager := fun _ => .error (.integrity "Integrity check failed")

/-- Flags: `prepare yarn@2.2.2` with both `--all` and a spec (for C3). -/
def flagsAllSpec : PrepareFlags :=
  { spec := some "yarn@2.2.2", activate := false, all := true, output := .unset, json := false }

/-- Flags: bare `prepare` (discover from the project). -/
def flagsNone : PrepareFlags :=
  { spec := none, activate := false, all := false, output := .unset, json := false }

/-- Flags: `prepare yarn@2.2.2 -o`. -/
def flagsSpecO : PrepareFlags :=
  { spec := some "yarn@2.2.2", activate := false, all := false, output := .flag, json := false }

/-- Flags: `prepare --all -o`. -/
def flagsAllO : PrepareFlags :=
  { spec := none, activate := false, all := true, output := .flag, json := false }

/-- Flags: `prepare -o` (discover from the project, bare output flag). -/
def flagsDiscO : PrepareFlags :=
  { spec := none, activate := false, all := false, output := .flag, json := false }

/-- Flags: `prepare yarn@2.2.2 --output=custom.tgz`. -/
def flagsPath : PrepareFlags :=
  { spec := some "yarn@2.2.2", activate := false, all := false, output := .path "custom.tgz", json := false }

/-- Flags: `prepare yarn@2.2.2 --output=` with an empty string path. -/
def flagsPathEmpty : PrepareFlags :=
  { spec := some "yarn@2.2.2", activate := false, all := false, output := .path "", json := false }

/-- Flags: `prepare yarn@2.2.2 --activate`. -/
def flagsAct : PrepareFlags :=
  { spec := some "yarn@2.2.2", activate := true, all := false, output := .unset, json := false }

/-- Recognizer for archive-creation events, used to count archives written. -/
def isPackEvent : Event → Bool
  | .pack _ _ _ => true
  | _ => false

/-- An empty activation state (no manager activated yet). -/
def stEmpty : ActivationState := fun _ => none

/-- A concrete default-version table with one supported name. -/
def tableW : List (String × String) := [("yarn", "1.22.4")]

/-- A concrete locator to activate. -/
def locW : Locator := ⟨"yarn", "2.2.2"⟩

/-- A concrete exact-version recognizer (every range counts as exact). -/
def isExactW : String → Bool := fun _ => true

/-- A concrete resolver obeying the exact-version rule of spec 4.2 step 1. -/
def resolveW : Descriptor → Option Locator := fun d => some ⟨d.name, d.range⟩

/-- A concrete install tree used by the round-trip witness. -/
def treeW : Tree :=
  [("package.json", "manifest"), ("bin/yarn.js", "yarncode")]

/-- A concrete version reporter for the round-trip witness: reports `2.2.2`
exactly on the exported tree. -/
def runVersionW : Tree → Option String :=
  fun t => if t = treeW then some "2.2.2" else none

/-! ## Helper lemmas -/

theorem string_data_append (a b : String) : (a ++ b).data = a.data ++ b.data := rfl

theorem pathRelative_under (b rest : String) :
    pathRelative b ((b ++ "/") ++ rest) = rest := by
  have hslash : ("/" : String).data = [Char.ofNat 47] := by decide
  have hdata : ((b ++ "/") ++ rest).data = (b.data ++ [Char.ofNat 47]) ++ rest.data := by
    rw [string_data_append, string_data_append, hslash]
  unfold pathRelative
  rw [hdata, if_pos ⟨rest.data, rfl⟩]
  have hlen : b.data.length + 1 = (b.data ++ [Char.ofNat 47]).length := by simp
  rw [hlen, List.drop_left]

theorem execute_eq_run {env : Env} {flags : PrepareFlags}
    (h : (flags.all && flags.spec.isSome) = false) :
    execute env flags = runRequests env flags (requestList env flags) := by
  simp [execute, h]

theorem runRequests_cons_err {env : Env} {flags : PrepareFlags} {r : Req} {rs : List Req}
    {evs : List Event} {e : CmdError}
    (h : processRequest env flags r = (evs, some e)) :
    runRequests env flags (r :: rs) = (evs, some e) := by
  conv_lhs => rw [runRequests]
  rw [h]

theorem runRequests_cons_ok {env : Env} {flags : PrepareFlags} {r : Req} {rs : List Req}
    {evs : List Event}
    (h : processRequest env flags r = (evs, none)) :
    runRequests env flags (r :: rs)
      = (evs ++ (runRequests env flags rs).1, (runRequests env flags rs).2) := by
  conv_lhs => rw [runRequests]
  rw [h]

theorem runRequests_mem_block {env : Env} {flags : PrepareFlags} {rs : List Req} {ev : Event}
    (h : ev ∈ (runRequests env flags rs).1) :
    ∃ r ∈ rs, ev ∈ (processRequest env flags r).1 ∧
      ∃ pre post, (runRequests env flags rs).1
        = pre ++ ((processRequest env flags r).1 ++ post) := by
  induction rs with
  | nil => simp [runRequests] at h
  | cons r rs ih =>
    cases hp : processRequest env flags r with
    | mk evs err =>
      have h1 : (processRequest env flags r).1 = evs := by rw [hp]
      cases err with
      | some e =>
        rw [runRequests_cons_err hp] at h
        exact ⟨r, List.mem_cons_self r rs, by rw [h1]; exact h,
          [], [], by rw [runRequests_cons_err hp, h1]; simp⟩
      | none =>
        rw [runRequests_cons_ok hp] at h
        rcases List.mem_append.mp h with h' | h'
        · exact ⟨r, List.mem_cons_self r rs, by rw [h1]; exact h',
            [], (runRequests env flags rs).1,
            by rw [runRequests_cons_ok hp, h1]; simp⟩
        · rcases ih h' with ⟨r', hr', hev', pre, post, heq⟩
          exact ⟨r', List.mem_cons_of_mem r hr', hev',
            evs ++ pre, post, by rw [runRequests_cons_ok hp, heq]; simp⟩

theorem execute_mem_block {env : Env} {flags : PrepareFlags} {ev : Event}
    (h : ev ∈ (execute env flags).1) :
    ∃ r ∈ requestList env flags, ev ∈ (processRequest env flags r).1 ∧
      ∃ pre post, (execute env flags).1
        = pre ++ ((processRequest env flags r).1 ++ post) := by
  cases hg : (flags.all && flags.spec.isSome) with
  | true => rw [execute, if_pos hg] at h; simp at h
  | false =>
    rw [execute_eq_run hg] at h ⊢
    exact runRequests_mem_block h

theorem runRequests_append_ok {env : Env} {flags : PrepareFlags} {l1 l2 : List Req}
    (h : ∀ x ∈ l1, (processRequest env flags x).2 = none) :
    runRequests env flags (l1 ++ l2)
      = ((l1.map fun x => (processRequest env flags x).1).flatten
           ++ (runRequests env flags l2).1,
         (runRequests env flags l2).2) := by
  induction l1 with
  | nil => simp
  | cons r rs ih =>
    have hr : (processRequest env flags r).2 = none := h r (List.mem_cons_self r rs)
    have hp : processRequest env flags r = ((processRequest env flags r).1, none) := by
      rw [← hr]
    rw [List.cons_append, runRequests_cons_ok hp,
      ih (fun x hx => h x (List.mem_cons_of_mem r hx))]
    simp [List.append_assoc]

theorem processRequest_err {env : Env} {flags : PrepareFlags} {req : Req} {e : CmdError}
    (h : reqSpec env req = .error e) :
    processRequest env flags req = ([], some e) := by
  simp [processRequest, h]

theorem processRequest_noRes {env : Env} {flags : PrepareFlags} {req : Req} {d : Descriptor}
    (h : reqSpec env req = .ok d) (hres : env.resolveDescriptor d = none) :
    processRequest env flags req = ([.resolve d], some (.usage (resolveFailMsg d))) := by
  simp [processRequest, h, hres]

theorem processRequest_installFail {env : Env} {flags : PrepareFlags} {req : Req}
    {d : Descriptor} {l : Locator} {e : CmdError}
    (h : reqSpec env req = .ok d) (hres : env.resolveDescriptor d = some l)
    (hens : env.ensurePackageManager l = .error e) :
    processRequest env flags req = ([.resolve d], some e) := by
  simp [processRequest, h, hres, hens]

theorem processRequest_ok {env : Env} {flags : PrepareFlags} {req : Req} {d : Descriptor}
    {l : Locator} {inst : InstallSpec}
    (h : reqSpec env req = .ok d) (hres : env.resolveDescriptor d = some l)
    (hens : env.ensurePackageManager l = .ok inst) :
    processRequest env flags req =
      (([Event.resolve d, Event.ensure l]
          ++ (if flags.activate then [Event.activate l] else []))
        ++ (if flags.output.truthy then
              [Event.pack env.installFolder (fileNameFor env flags req l)
                 (pathRelative env.installFolder inst.location),
               Event.stdout (outLine flags (fileNameFor env flags req l))]
            else []), none) := by
  cases ht : flags.output.truthy <;> simp [processRequest, h, hres, hens, ht]

theorem pack_mem_processRequest {env : Env} {flags : PrepareFlags} {req : Req}
    {c f en : String} (h : Event.pack c f en ∈ (processRequest env flags req).1) :
    ∃ d l inst, reqSpec env req = .ok d ∧ env.resolveDescriptor d = some l ∧
      env.ensurePackageManager l = .ok inst ∧
      flags.output.truthy = true ∧ c = env.installFolder ∧
      f = fileNameFor env flags req l ∧
      en = pathRelative env.installFolder inst.location ∧
      Event.ensure l ∈ (processRequest env flags req).1 := by
  cases hs : reqSpec env req with
  | error e => rw [processRequest_err hs] at h; simp at h
  | ok d =>
    cases hr : env.resolveDescriptor d with
    | none => rw [processRequest_noRes hs hr] at h; simp at h
    | some l =>
      cases he : env.ensurePackageManager l with
      | error e => rw [processRequest_installFail hs hr he] at h; simp at h
      | ok inst =>
        rw [processRequest_ok hs hr he] at h
        cases hact : flags.activate with
        | true =>
          cases ht : flags.output.truthy with
          | true =>
            rw [hact, ht] at h
            simp at h
            exact ⟨d, l, inst, rfl, hr, he, rfl, h.1, h.2.1, h.2.2,
              by rw [processRequest_ok hs hr he, hact, ht]; simp⟩
          | false => rw [hact, ht] at h; simp at h
        | false =>
          cases ht : flags.output.truthy with
          | true =>
            rw [hact, ht] at h
            simp at h
            exact ⟨d, l, inst, rfl, hr, he, rfl, h.1, h.2.1, h.2.2,
              by rw [processRequest_ok hs hr he, hact, ht]; simp⟩
          | false => rw [hact, ht] at h; simp at h

theorem activate_not_mem_processRequest {env : Env} {flags : PrepareFlags} {req : Req}
    {l : Locator} (hact : flags.activate = false) :
    Event.activate l ∉ (processRequest env flags req).1 := by
  cases hs : reqSpec env req with
  | error e => rw [processRequest_err hs]; simp
  | ok d =>
    cases hr : env.resolveDescriptor d with
    | none => rw [processRequest_noRes hs hr]; simp
    | some l' =>
      cases he : env.ensurePackageManager l' with
      | error e => rw [processRequest_installFail hs hr he]; simp
      | ok inst =>
        rw [processRequest_ok hs hr he, hact]
        cases ht : flags.output.truthy <;> simp

theorem activate_mem_processRequest {env : Env} {flags : PrepareFlags} {req : Req}
    {l : Locator} (h : Event.activate l ∈ (processRequest env flags req).1) :
    ∃ d tail, (processRequest env flags req).1
      = [Event.resolve d, Event.ensure l, Event.activate l] ++ tail := by
  cases hs : reqSpec env req with
  | error e => rw [processRequest_err hs] at h; simp at h
  | ok d =>
    cases hr : env.resolveDescriptor d with
    | none => rw [processRequest_noRes hs hr] at h; simp at h
    | some l' =>
      cases he : env.ensurePackageManager l' with
      | error e => rw [processRequest_installFail hs hr he] at h; simp at h
      | ok inst =>
        rw [processRequest_ok hs hr he] at h
        cases hact : flags.activate with
        | false =>
          rw [hact] at h
          cases ht : flags.output.truthy <;> rw [ht] at h <;> simp at h
        | true =>
          rw [hact] at h
          have hl : l = l' := by
            cases ht : flags.output.truthy <;> rw [ht] at h <;> simpa using h
          subst hl
          refine ⟨d, (if flags.output.truthy then
              [Event.pack env.installFolder (fileNameFor env flags req l)
                 (pathRelative env.installFolder inst.location),
               Event.stdout (outLine flags (fileNameFor env flags req l))]
            else []), ?_⟩
          rw [processRequest_ok hs hr he, hact]
          simp

theorem ensure_mem_processRequest {env : Env} {flags : PrepareFlags} {req : Req}
    {l : Locator} (h : Event.ensure l ∈ (processRequest env flags req).1) :
    ∃ d inst, reqSpec env req = .ok d ∧ env.resolveDescriptor d = some l
      ∧ env.ensurePackageManager l = .ok inst := by
  cases hs : reqSpec env req with
  | error e => rw [processRequest_err hs] at h; simp at h
  | ok d =>
    cases hr : env.resolveDescriptor d with
    | none => rw [processRequest_noRes hs hr] at h; simp at h
    | some l' =>
      cases he : env.ensurePackageManager l' with
      | error e => rw [processRequest_installFail hs hr he] at h; simp at h
      | ok inst =>
        rw [processRequest_ok hs hr he] at h
        have hl : l = l' := by
          cases hact : flags.activate <;> rw [hact] at h <;>
            cases ht : flags.output.truthy <;> rw [ht] at h <;> simpa using h
        subst hl
        exact ⟨d, inst, rfl, hr, he⟩

theorem ensure_imp_activate_processRequest {env : Env} {flags : PrepareFlags} {req : Req}
    {l : Locator} (hact : flags.activate = true)
    (h : Event.ensure l ∈ (processRequest env flags req).1) :
    Event.activate l ∈ (processRequest env flags req).1 := by
  rcases ensure_mem_processRequest h with ⟨d, inst, hs, hr, he⟩
  rw [processRequest_ok hs hr he, hact]
  cases ht : flags.output.truthy <;> simp

theorem processRequest_fail_shape {env : Env} {flags : PrepareFlags} {req : Req}
    {e : CmdError} (h : (processRequest env flags req).2 = some e) :
    (processRequest env flags req).1 = []
      ∨ ∃ d, (processRequest env flags req).1 = [Event.resolve d] := by
  cases hs : reqSpec env req with
  | error e' => left; rw [processRequest_err hs]
  | ok d =>
    cases hr : env.resolveDescriptor d with
    | none => right; exact ⟨d, by rw [processRequest_noRes hs hr]⟩
    | some l =>
      cases he : env.ensurePackageManager l with
      | error e0 => right; exact ⟨d, by rw [processRequest_installFail hs hr he]⟩
      | ok inst => rw [processRequest_ok hs hr he] at h; simp at h

theorem truthy_path {flags : PrepareFlags} {p : String}
    (hp : flags.output = .path p) (hne : p ≠ "") : flags.output.truthy = true := by
  rw [hp]
  simp [OutputOpt.truthy, bne, hne]

theorem fileNameFor_path {env : Env} {flags : PrepareFlags} {req : Req} {resolved : Locator}
    {p : String} (hp : flags.output = .path p) :
    fileNameFor env flags req resolved = p := by
  simp [fileNameFor, hp]

theorem processRequest_one_pack {env : Env} {flags : PrepareFlags} {req : Req}
    (ht : flags.output.truthy = true)
    (h : (processRequest env flags req).2 = none) :
    (((processRequest env flags req).1).filter isPackEvent).length = 1 := by
  cases hs : reqSpec env req with
  | error e => rw [processRequest_err hs] at h; simp at h
  | ok d =>
    cases hr : env.resolveDescriptor d with
    | none => rw [processRequest_noRes hs hr] at h; simp at h
    | some l =>
      cases he : env.ensurePackageManager l with
      | error e => rw [processRequest_installFail hs hr he] at h; simp at h
      | ok inst =>
        rw [processRequest_ok hs hr he, ht]
        cases hact : flags.activate <;> simp [isPackEvent]

theorem runRequests_pack_count {env : Env} {flags : PrepareFlags}
    (ht : flags.output.truthy = true) :
    ∀ rs : List Req, (runRequests env flags rs).2 = none →
      (((runRequests env flags rs).1).filter isPackEvent).length = rs.length := by
  intro rs
  induction rs with
  | nil => intro _; simp [runRequests]
  | cons r rs ih =>
    intro hok
    cases hp : processRequest env flags r with
    | mk evs err =>
      cases err with
      | some e => rw [runRequests_cons_err hp] at hok; simp at hok
      | none =>
        rw [runRequests_cons_ok hp] at hok ⊢
        have h1 : (evs.filter isPackEvent).length = 1 := by
          have h2 := @processRequest_one_pack env flags r ht (by rw [hp])
          rw [hp] at h2
          exact h2
        simp only [List.filter_append, List.length_append]
        rw [ih hok, h1]
        simp [Nat.add_comm]

theorem strip_append (pre q : String) :
    String.mk ((pre ++ q).data.drop pre.data.length) = q := by
  have h : (pre ++ q).data = pre.data ++ q.data := rfl
  rw [h, List.drop_left]

theorem installEntries_exportArchive (l : Locator) (t : Tree) :
    installEntries l (exportArchive l t) = t := by
  induction t with
  | nil => rfl
  | cons e t ih =>
    obtain ⟨p, c⟩ := e
    have hp : ((l.name ++ "/" ++ l.reference ++ "/").data
        <+: (l.name ++ "/" ++ l.reference ++ "/" ++ p).data) := ⟨p.data, rfl⟩
    simp only [exportArchive, List.map_cons, installEntries, List.filter_cons,
      decide_eq_true hp, if_true, List.map_cons]
    rw [strip_append (l.name ++ "/" ++ l.reference ++ "/") p]
    simp only [installEntries, exportArchive] at ih
    rw [ih]

theorem hydrate_no_network (a : Tree) (l : Locator) :
    HydrateEvent.network ∉ (hydrate a l).2 := by
  simp [hydrate]

/-! ## Claim theorems -/

/-- Claim C3: for every `prepare` invocation with both `--all` and an
explicit descriptor argument, the command fails with a usage error
(exit 1) before performing any resolution, installation, activation or
output - the event trace is empty, so no engine operation was invoked and
nothing was written to disk or stdout. -/
theorem C3_all_with_spec_usage_error (env : Env) (flags : PrepareFlags)
    (hall : flags.all = true) (hspec : flags.spec.isSome = true) :
    execute env flags = ([], some (.usage allUsageMsg))
      ∧ exitCode (execute env flags).2 = 1 := by
  have hg : (flags.all && flags.spec.isSome) = true := by rw [hall, hspec]; rfl
  refine ⟨?_, ?_⟩ <;> simp [execute, hg, exitCode]

/-- Witness for C3 at a concrete environment and flag set. -/
theorem C3_witness :
    execute envOne flagsAllSpec = ([], some (.usage allUsageMsg))
      ∧ exitCode (execute envOne flagsAllSpec).2 = 1 :=
  C3_all_with_spec_usage_error envOne flagsAllSpec rfl rfl

/-- Claim C5: with no explicit descriptor and without `--all`, the outcome
is determined exhaustively by the manifest lookup: `NoProject` fails with
an error (exit 1), `NoSpec` fails with an error (exit 1), and
`Found d` proceeds using exactly the discovered descriptor `d` (the first
engine operation is the resolution of `d`). -/
theorem C5_discover_outcomes (env : Env) (flags : PrepareFlags)
    (hall : flags.all = false) (hspec : flags.spec = none) :
    (env.loadSpec = .NoProject →
        execute env flags = ([], some (.usage noProjectMsg))
          ∧ exitCode (execute env flags).2 = 1)
    ∧ (env.loadSpec = .NoSpec →
        execute env flags = ([], some (.usage noSpecMsg))
          ∧ exitCode (execute env flags).2 = 1)
    ∧ (∀ d, env.loadSpec = .Found d →
        (execute env flags).1.head? = some (.resolve d)) := by
  have hg : (flags.all && flags.spec.isSome) = false := by rw [hall]; rfl
  have hreq : requestList env flags = [Req.discover] := by
    simp [requestList, hall, hspec]
  refine ⟨?_, ?_, ?_⟩
  · intro hl
    have hs : reqSpec env Req.discover = .error (.usage noProjectMsg) := by
      simp [reqSpec, hl]
    rw [execute_eq_run hg, hreq, runRequests_cons_err (processRequest_err hs)]
    exact ⟨rfl, rfl⟩
  · intro hl
    have hs : reqSpec env Req.discover = .error (.usage noSpecMsg) := by
      simp [reqSpec, hl]
    rw [execute_eq_run hg, hreq, runRequests_cons_err (processRequest_err hs)]
    exact ⟨rfl, rfl⟩
  · intro d hl
    have hs : reqSpec env Req.discover = .ok d := by simp [reqSpec, hl]
    rw [execute_eq_run hg, hreq]
    cases hr : env.resolveDescriptor d with
    | none =>
      rw [runRequests_cons_err (processRequest_noRes hs hr)]
      rfl
    | some l =>
      cases he : env.ensurePackageManager l with
      | error e =>
        rw [runRequests_cons_err (processRequest_installFail hs hr he)]
        rfl
      | ok inst =>
        rw [runRequests_cons_ok (processRequest_ok hs hr he)]
        simp

/-- Witness for C5 at a concrete environment with no project manifest. -/
theorem C5_witness :
    execute envNP flagsNone = ([], some (.usage noProjectMsg))
      ∧ exitCode (execute envNP flagsNone).2 = 1 :=
  (C5_discover_outcomes envNP flagsNone rfl rfl).1 rfl

/-- Claim C2: round-trip - hydrating the archive exported for an install
into a fresh empty cache root reproduces the very same install content
(hence an identical content hash), any version probe run on the hydrated
install answers exactly as on the original (in particular the manager's
`--version` prints the exported version), and hydration emits no network
event. (The spec-modelled export prefixes entries with
`name/reference/`, exactly the relative path `Prepare.ts` hands to
`tar.c` via `path.relative`.) -/
theorem C2_round_trip (l : Locator) (t : Tree)
    (runVersion : Tree → Option String) (v : String)
    (hv : runVersion t = some v) :
    installEntries l (hydrate (exportArchive l t) l).1 = t
    ∧ contentHash (installEntries l (hydrate (exportArchive l t) l).1) = contentHash t
    ∧ runVersion (installEntries l (hydrate (exportArchive l t) l).1) = some v
    ∧ HydrateEvent.network ∉ (hydrate (exportArchive l t) l).2 := by
  have h1 : (hydrate (exportArchive l t) l).1 = exportArchive l t := rfl
  rw [h1, installEntries_exportArchive]
  exact ⟨rfl, rfl, hv, hydrate_no_network _ _⟩

/-- Witness for C2 at a concrete locator, tree and version probe. -/
theorem C2_witness :
    runVersionW treeW = some "2.2.2"
    ∧ (installEntries locW (hydrate (exportArchive locW treeW) locW).1 = treeW
       ∧ contentHash (installEntries locW (hydrate (exportArchive locW treeW) locW).1)
           = contentHash treeW
       ∧ runVersionW (installEntries locW (hydrate (exportArchive locW treeW) locW).1)
           = some "2.2.2"
       ∧ HydrateEvent.network ∉ (hydrate (exportArchive locW treeW) locW).2) :=
  ⟨by decide, C2_round_trip locW treeW runVersionW "2.2.2" (by decide)⟩

/-- Claim C4: when the descriptor processed next fails to resolve
(`resolveDescriptor` yields no locator), `prepare` fails with exit 1, the
error message names both the requested range and the manager name, and
`ensurePackageManager` / `activatePackageManager` are never called for
that descriptor: the only event it contributes is its resolution attempt,
and every ensure/activate event of the whole run belongs to an earlier
descriptor. -/
theorem C4_resolution_failure (env : Env) (flags : PrepareFlags)
    (l1 l2 : List Req) (r : Req) (d : Descriptor)
    (hguard : (flags.all && flags.spec.isSome) = false)
    (hreq : requestList env flags = l1 ++ r :: l2)
    (hok : ∀ x ∈ l1, (processRequest env flags x).2 = none)
    (hd : reqSpec env r = .ok d)
    (hres : env.resolveDescriptor d = none) :
    execute env flags
      = ((l1.map fun x => (processRequest env flags x).1).flatten ++ [Event.resolve d],
         some (.usage (resolveFailMsg d)))
    ∧ exitCode (execute env flags).2 = 1
    ∧ (∃ x y z, resolveFailMsg d = x ++ d.range ++ y ++ d.name ++ z)
    ∧ (∀ l, Event.ensure l ∈ (execute env flags).1 →
         Event.ensure l ∈ (l1.map fun x => (processRequest env flags x).1).flatten)
    ∧ (∀ l, Event.activate l ∈ (execute env flags).1 →
         Event.activate l ∈ (l1.map fun x => (processRequest env flags x).1).flatten) := by
  have hrun : execute env flags
      = ((l1.map fun x => (processRequest env flags x).1).flatten ++ [Event.resolve d],
         some (.usage (resolveFailMsg d))) := by
    rw [execute_eq_run hguard, hreq, runRequests_append_ok hok,
      runRequests_cons_err (processRequest_noRes hd hres)]
  refine ⟨hrun, by rw [hrun]; rfl, ?_, ?_, ?_⟩
  · exact ⟨"Failed to successfully resolve \x27", "\x27 to a valid ", " release", rfl⟩
  · intro l hl
    rw [hrun] at hl
    rcases List.mem_append.mp hl with h | h
    · exact h
    · simp at h
  · intro l hl
    rw [hrun] at hl
    rcases List.mem_append.mp hl with h | h
    · exact h
    · simp at h

/-- Witness for C4: a single explicit descriptor that fails to resolve. -/
theorem C4_witness :
    execute envNoRes flagsSpecO
      = ([Event.resolve ⟨"yarn", "2.2.2"⟩],
         some (.usage (resolveFailMsg ⟨"yarn", "2.2.2"⟩)))
    ∧ exitCode (execute envNoRes flagsSpecO).2 = 1 := by
  have h := C4_resolution_failure envNoRes flagsSpecO [] [] (.cli "yarn@2.2.2")
    ⟨"yarn", "2.2.2"⟩ rfl rfl (by intro x hx; simp at hx) rfl rfl
  exact ⟨h.1, h.2.1⟩

/-- Claim C10: descriptors are processed strictly sequentially in list
order and the first failing one aborts the whole command: the final trace
is exactly the concatenation of the event blocks of the successful prefix
followed by the partial events of the failing descriptor (so nothing is
resolved, installed, activated or packed for any later descriptor, while
earlier work is kept); the failing descriptor itself contributes no
stdout line and no archive; and the aborting failure is exhaustively a
manifest-lookup/parse error, a resolution failure, or an install error
thrown by `ensurePackageManager`. -/
theorem C10_first_failure_aborts (env : Env) (flags : PrepareFlags)
    (l1 l2 : List Req) (r : Req) (e : CmdError)
    (hguard : (flags.all && flags.spec.isSome) = false)
    (hreq : requestList env flags = l1 ++ r :: l2)
    (hok : ∀ x ∈ l1, (processRequest env flags x).2 = none)
    (herr : (processRequest env flags r).2 = some e) :
    execute env flags
      = ((l1.map fun x => (processRequest env flags x).1).flatten
           ++ (processRequest env flags r).1, some e)
    ∧ (∀ s, Event.stdout s ∉ (processRequest env flags r).1)
    ∧ (∀ c f en, Event.pack c f en ∉ (processRequest env flags r).1)
    ∧ ((∃ e0, reqSpec env r = .error e0 ∧ e = e0)
       ∨ (∃ d, reqSpec env r = .ok d ∧ env.resolveDescriptor d = none
            ∧ e = .usage (resolveFailMsg d))
       ∨ (∃ d l, reqSpec env r = .ok d ∧ env.resolveDescriptor d = some l
            ∧ env.ensurePackageManager l = .error e)) := by
  have hp : processRequest env flags r = ((processRequest env flags r).1, some e) := by
    rw [← herr]
  have hrun : execute env flags
      = ((l1.map fun x => (processRequest env flags x).1).flatten
           ++ (processRequest env flags r).1, some e) := by
    rw [execute_eq_run hguard, hreq, runRequests_append_ok hok, runRequests_cons_err hp]
  refine ⟨hrun, ?_, ?_, ?_⟩
  · intro s hs
    rcases processRequest_fail_shape herr with h0 | ⟨d, h0⟩ <;> rw [h0] at hs <;> simp at hs
  · intro c f en hpk
    rcases processRequest_fail_shape herr with h0 | ⟨d, h0⟩ <;> rw [h0] at hpk <;> simp at hpk
  · cases hs : reqSpec env r with
    | error e0 =>
      have h0 : processRequest env flags r = ([], some e0) := processRequest_err hs
      rw [h0] at herr
      have he2 : some e0 = some e := herr
      injection he2 with he3
      exact Or.inl ⟨e0, rfl, he3.symm⟩
    | ok d =>
      cases hr2 : env.resolveDescriptor d with
      | none =>
        have h0 : processRequest env flags r
            = ([Event.resolve d], some (.usage (resolveFailMsg d))) :=
          processRequest_noRes hs hr2
        rw [h0] at herr
        have he2 : some (CmdError.usage (resolveFailMsg d)) = some e := herr
        injection he2 with he3
        exact Or.inr (Or.inl ⟨d, rfl, hr2, he3.symm⟩)
      | some l =>
        cases he : env.ensurePackageManager l with
        | error e0 =>
          have h0 : processRequest env flags r = ([Event.resolve d], some e0) :=
            processRequest_installFail hs hr2 he
          rw [h0] at herr
          have he2 : some e0 = some e := herr
          injection he2 with he3
          exact Or.inr (Or.inr ⟨d, l, rfl, hr2, he3 ▸ he⟩)
        | ok inst =>
          have h0 : processRequest env flags r
              = (([Event.resolve d, Event.ensure l]
                    ++ (if flags.activate then [Event.activate l] else []))
                  ++ (if flags.output.truthy then
                        [Event.pack env.installFolder (fileNameFor env flags r l)
                           (pathRelative env.installFolder inst.location),
                         Event.stdout (outLine flags (fileNameFor env flags r l))]
                      else []), none) :=
            processRequest_ok hs hr2 he
          rw [h0] at herr
          simp at herr

/-- Witness for C10: a run whose descriptor resolves but whose install
fails with an integrity error - the previously uncovered install-failure
path - aborting the command with that error and no stdout line. -/
theorem C10_witness :
    execute envInstallFail flagsSpecO
      = ([Event.resolve ⟨"yarn", "2.2.2"⟩],
         some (.integrity "Integrity check failed"))
    ∧ Event.stdout "Packed /proj/corepack-yarn-2.2.2.tgz\n"
        ∉ (processRequest envInstallFail flagsSpecO (.cli "yarn@2.2.2")).1 := by
  have h := C10_first_failure_aborts envInstallFail flagsSpecO [] []
    (.cli "yarn@2.2.2") (.integrity "Integrity check failed")
    rfl rfl (by intro x hx; simp at hx) rfl
  exact ⟨h.1, h.2.1 _⟩

/-- Claim C7: `activatePackageManager` is called if and only if `--activate`
is set; when absent, no activation event occurs at all (the persisted
activation state is untouched); when present, every activation event is
immediately preceded by the successful `ensurePackageManager` of the very
same resolved locator, and every installed locator is activated. -/
theorem C7_activate_iff_flag (env : Env) (flags : PrepareFlags) :
    (flags.activate = false → ∀ l, Event.activate l ∉ (execute env flags).1)
    ∧ (flags.activate = true →
        (∀ l, Event.activate l ∈ (execute env flags).1 →
          ∃ pre post, (execute env flags).1
            = pre ++ ([Event.ensure l, Event.activate l] ++ post))
        ∧ (∀ l, Event.ensure l ∈ (execute env flags).1 →
            Event.activate l ∈ (execute env flags).1)) := by
  constructor
  · intro hact l hl
    rcases execute_mem_block hl with ⟨r, hr, hev, _⟩
    exact activate_not_mem_processRequest hact hev
  · intro hact
    constructor
    · intro l hl
      rcases execute_mem_block hl with ⟨r, hr, hev, pre0, post0, heq⟩
      rcases activate_mem_processRequest hev with ⟨d, tail, hblock⟩
      refine ⟨pre0 ++ [Event.resolve d], tail ++ post0, ?_⟩
      rw [heq, hblock]
      simp
    · intro l hl
      rcases execute_mem_block hl with ⟨r, hr, hev, pre0, post0, heq⟩
      have hact' := ensure_imp_activate_processRequest hact hev
      rw [heq]
      exact List.mem_append.mpr (Or.inr (List.mem_append.mpr (Or.inl hact')))

/-- Witness for C7: with `--activate`, the resolved locator is activated. -/
theorem C7_witness :
    Event.activate ⟨"yarn", "2.2.2"⟩ ∈ (execute envOne flagsAct).1 :=
  ((C7_activate_iff_flag envOne flagsAct).2 rfl).2 ⟨"yarn", "2.2.2"⟩ (by decide)

/-- Claim C6: every archive produced by `execute` is created with the tar
working directory set to the cache root (the install folder) and with its
single internal entry path relative to that root, namely
`<name>/<reference>` of an installed locator - so extraction under any
cache root reproduces the install layout. The hypothesis is the Install
Cache layout of spec 4.3, `<cacheRoot>/<name>/<reference>`, whose source
is not under src. -/
theorem C6_archive_entry_relative (env : Env) (flags : PrepareFlags)
    (hloc : ∀ (l : Locator) (inst : InstallSpec),
        env.ensurePackageManager l = .ok inst →
        inst.location = env.installFolder ++ "/" ++ (l.name ++ "/" ++ l.reference)) :
    ∀ c f en, Event.pack c f en ∈ (execute env flags).1 →
      c = env.installFolder
      ∧ ∃ l, Event.ensure l ∈ (execute env flags).1
          ∧ en = l.name ++ "/" ++ l.reference := by
  intro c f en h
  rcases execute_mem_block h with ⟨r, hr, hev, pre0, post0, heq⟩
  rcases pack_mem_processRequest hev with ⟨d, l, inst, hs, hres, he, ht, hc, hf, hen, hensure⟩
  refine ⟨hc, l, ?_, ?_⟩
  · rw [heq]
    exact List.mem_append.mpr (Or.inr (List.mem_append.mpr (Or.inl hensure)))
  · rw [hen, hloc l inst he]
    exact pathRelative_under env.installFolder (l.name ++ "/" ++ l.reference)

/-- Witness for C6 at a concrete run of `prepare yarn@2.2.2 -o`. -/
theorem C6_witness :
    "/cache" = envOne.installFolder
    ∧ ∃ l, Event.ensure l ∈ (execute envOne flagsSpecO).1
        ∧ "yarn/2.2.2" = l.name ++ "/" ++ l.reference :=
  C6_archive_entry_relative envOne flagsSpecO
    (by
      intro l inst h
      have h2 : Except.ok (⟨"/cache/" ++ l.name ++ "/" ++ l.reference⟩ : InstallSpec)
          = Except.ok inst := h
      injection h2 with h3
      rw [← h3]
      show ("/cache/" ++ l.name ++ "/" ++ l.reference : String)
        = "/cache" ++ "/" ++ (l.name ++ "/" ++ l.reference)
      have h1 : ("/cache/" : String) = "/cache" ++ "/" := by decide
      simp [h1, String.append_assoc])
    "/cache" "/proj/corepack-yarn-2.2.2.tgz" "yarn/2.2.2" (by decide)

/-- Claim C1, counterexample to the statement as written: under
`prepare --all -o` no specific version was explicitly requested
(`spec = none`), yet the default archive name is the versioned
`corepack-yarn-1.22.4.tgz` and the version-less `corepack-yarn.tgz` is
never produced - so "versioned iff the caller explicitly requested a
specific version" fails for `--all` default descriptors. -/
theorem C1_counterexample :
    flagsAllO.spec = none
    ∧ flagsAllO.output = OutputOpt.flag
    ∧ Event.pack "/cache" (pathJoin envOne.cwd "corepack-yarn-1.22.4.tgz") "yarn/1.22.4"
        ∈ (execute envOne flagsAllO).1
    ∧ Event.pack "/cache" (pathJoin envOne.cwd "corepack-yarn.tgz") "yarn/1.22.4"
        ∉ (execute envOne flagsAllO).1 := by
  refine ⟨rfl, rfl, by decide, by decide⟩

/-- Claim C1 (amended): with `--output` set without an explicit path, the
default archive name is version-less exactly when the descriptor was
discovered from the project (no descriptor argument and no `--all`), and
versioned (`corepack-<name>-<reference>.tgz`) whenever the request was
defined - an explicit CLI descriptor or a `--all` default descriptor. In
particular `prepare yarn@2.2.2 -o` writes `corepack-yarn-2.2.2.tgz`. -/
theorem C1_default_filename (env : Env) (flags : PrepareFlags)
    (hout : flags.output = OutputOpt.flag) :
    ∀ c f en, Event.pack c f en ∈ (execute env flags).1 →
      ∃ l, Event.ensure l ∈ (execute env flags).1
        ∧ (flags.all = false → flags.spec = none →
            f = pathJoin env.cwd ("corepack-" ++ l.name ++ ".tgz"))
        ∧ (flags.all = true →
            f = pathJoin env.cwd ("corepack-" ++ l.name ++ "-" ++ l.reference ++ ".tgz"))
        ∧ (∀ s, flags.spec = some s →
            f = pathJoin env.cwd ("corepack-" ++ l.name ++ "-" ++ l.reference ++ ".tgz")) := by
  intro c f en h
  have hg : (flags.all && flags.spec.isSome) = false := by
    cases hb : (flags.all && flags.spec.isSome)
    · rfl
    · rw [execute, if_pos hb] at h; simp at h
  rcases execute_mem_block h with ⟨r, hr, hev, pre0, post0, heq⟩
  rcases pack_mem_processRequest hev with ⟨d, l, inst, hs, hres, he, ht, hc, hf, hen, hensure⟩
  have hmem : Event.ensure l ∈ (execute env flags).1 := by
    rw [heq]
    exact List.mem_append.mpr (Or.inr (List.mem_append.mpr (Or.inl hensure)))
  refine ⟨l, hmem, ?_, ?_, ?_⟩
  · intro hall hspec
    have hlist : requestList env flags = [Req.discover] := by
      simp [requestList, hall, hspec]
    rw [hlist] at hr
    simp at hr
    subst hr
    rw [hf]
    simp [fileNameFor, hout, defaultFileName]
  · intro hall
    have hlist : requestList env flags = env.defaultDescriptors.map Req.fromAll := by
      simp [requestList, hall]
    rw [hlist] at hr
    rcases List.mem_map.mp hr with ⟨d', hd', hrd⟩
    subst hrd
    rw [hf]
    simp [fileNameFor, hout, defaultFileName]
  · intro s hspec
    have hall : flags.all = false := by
      cases ha : flags.all
      · rfl
      · rw [ha, hspec] at hg; simp at hg
    have hlist : requestList env flags = [Req.cli s] := by
      simp [requestList, hall, hspec]
    rw [hlist] at hr
    simp at hr
    subst hr
    rw [hf]
    simp [fileNameFor, hout, defaultFileName]

/-- Witness for C1 (amended): `prepare yarn@2.2.2 -o` produces the
versioned default name. -/
theorem C1_witness :
    ∃ l, Event.ensure l ∈ (execute envOne flagsSpecO).1
      ∧ (flagsSpecO.all = false → flagsSpecO.spec = none →
          "/proj/corepack-yarn-2.2.2.tgz"
            = pathJoin envOne.cwd ("corepack-" ++ l.name ++ ".tgz"))
      ∧ (flagsSpecO.all = true →
          "/proj/corepack-yarn-2.2.2.tgz"
            = pathJoin envOne.cwd ("corepack-" ++ l.name ++ "-" ++ l.reference ++ ".tgz"))
      ∧ (∀ s, flagsSpecO.spec = some s →
          "/proj/corepack-yarn-2.2.2.tgz"
            = pathJoin envOne.cwd ("corepack-" ++ l.name ++ "-" ++ l.reference ++ ".tgz")) :=
  C1_default_filename envOne flagsSpecO rfl
    "/cache" "/proj/corepack-yarn-2.2.2.tgz" "yarn/2.2.2" (by decide)

/-- Claim C9, counterexample to the statement as written: with the
explicit (but empty) output string `--output=`, no archive is created at
all - the empty string is falsy in JavaScript, so `!this.output` skips the
packing step instead of writing to the explicit path. -/
theorem C9_counterexample :
    flagsPathEmpty.output = OutputOpt.path ""
    ∧ execute envOne flagsPathEmpty
        = ([Event.resolve ⟨"yarn", "2.2.2"⟩, Event.ensure ⟨"yarn", "2.2.2"⟩], none)
    ∧ ((execute envOne flagsPathEmpty).1).filter isPackEvent = [] := by
  refine ⟨rfl, by decide, by decide⟩

/-- Claim C9 (amended): when `--output` is given an explicit nonempty
string path, every archive of the run is written to exactly that path
(never the computed default naming), and on success exactly one archive is
written per descriptor processed - whether the descriptor came from the
command line, from `--all`, or from the project manifest. -/
theorem C9_explicit_output_path (env : Env) (flags : PrepareFlags) (p : String)
    (hp : flags.output = OutputOpt.path p) (hne : p ≠ "") :
    (∀ c f en, Event.pack c f en ∈ (execute env flags).1 → f = p)
    ∧ ((execute env flags).2 = none →
        (((execute env flags).1).filter isPackEvent).length
          = (requestList env flags).length) := by
  constructor
  · intro c f en h
    rcases execute_mem_block h with ⟨r, hr, hev, _⟩
    rcases pack_mem_processRequest hev with ⟨d, l, inst, hs, hres, he, ht, hc, hf, _⟩
    rw [hf]
    exact fileNameFor_path hp
  · intro hnone
    have hg : (flags.all && flags.spec.isSome) = false := by
      cases hb : (flags.all && flags.spec.isSome)
      · rfl
      · rw [execute, if_pos hb] at hnone; simp at hnone
    rw [execute_eq_run hg] at hnone ⊢
    exact runRequests_pack_count (truthy_path hp hne) _ hnone

/-- Witness for C9 (amended): `--output=custom.tgz` writes exactly one
archive for the single requested descriptor. -/
theorem C9_witness :
    (((execute envOne flagsPath).1).filter isPackEvent).length
      = (requestList envOne flagsPath).length :=
  (C9_explicit_output_path envOne flagsPath "custom.tgz" rfl (by decide)).2 (by decide)

/-- Claim C8: activation persistence - after activating locator `L`,
`getDefaultDescriptors` (no project manifest, no explicit descriptor)
yields a Descriptor for `L.name` whose range is `L.reference`, and any
resolver obeying the exact-version rule of spec 4.2 step 1 resolves it
back to `L`. The activation state and `getDefaultDescriptors` are
spec-modelled (their source is not under src). -/
theorem C8_activation_persistence (st : ActivationState)
    (table : List (String × String)) (L : Locator)
    (isExact : String → Bool) (resolve : Descriptor → Option Locator)
    (hres : ∀ n v, isExact v = true → resolve ⟨n, v⟩ = some ⟨n, v⟩)
    (hexact : isExact L.reference = true)
    (hmem : L.name ∈ table.map Prod.fst) :
    ∃ d ∈ getDefaultDescriptors (activatePackageManager st L) table,
      d.name = L.name ∧ d.range = L.reference ∧ resolve d = some L := by
  obtain ⟨n, ref⟩ := L
  rcases List.mem_map.mp hmem with ⟨nv, hnv, hn⟩
  refine ⟨⟨n, ref⟩, ?_, rfl, rfl, ?_⟩
  · apply List.mem_map.mpr
    refine ⟨nv, hnv, ?_⟩
    have hst : activatePackageManager st ⟨n, ref⟩ n = some ⟨n, ref⟩ := by
      simp [activatePackageManager]
    simp [hn, hst]
  · exact hres n ref hexact

/-- Witness for C8 at a concrete activation over an empty state. -/
theorem C8_witness :
    ∃ d ∈ getDefaultDescriptors (activatePackageManager stEmpty locW) tableW,
      d.name = locW.name ∧ d.range = locW.reference ∧ resolveW d = some locW :=
  C8_activation_persistence stEmpty tableW locW isExactW resolveW
    (fun _ _ _ => rfl) rfl (by decide)

end Corepack
